import Mathlib

set_option maxRecDepth 20000

/-!
# Verification of the clinical-notes extraction pipeline

A shallow embedding of the structured-extraction core of `backend/server.py`:
the markdown-fence sanitizer, the `json.loads` parsing step, the pydantic
`ClinicalOutput` validation, and the `generate_clinical_notes` /
`transcribe_audio` orchestration, with the persistence insert modelled as an
explicit effect list and the provider response envelopes as explicit data.

Text is modelled as `List Char`.  Machine-level points of the model:
* Python `str.strip()` removes the characters for which `str.isspace()` holds;
  `isPyWs` lists them (ASCII and the Unicode space characters).
* `json.loads` accepts only the four JSON whitespace characters, requires a
  single document with nothing but whitespace after it, builds `dict`s with
  last-occurrence-wins duplicate keys, and decodes string escapes.  The parser
  below follows that grammar; as a documented restriction it does not model the
  non-standard `NaN`/`Infinity` literals nor `\uXXXX` surrogate halves (inputs
  using those are rejected by the model instead of accepted), which no claim
  depends on.
* pydantic v2 (the code calls `model_dump`) with default config: every declared
  field required, `str` fields accept exactly JSON strings, list fields are
  validated element-wise with any malformed element failing the whole model,
  and unknown keys are silently ignored.
-/

/-! ## Characters and whitespace -/

/-- The four whitespace characters of the JSON grammar (`json.loads`). -/
def isJWs (c : Char) : Bool :=
  c == ' ' || c == '\t' || c == '\n' || c == '\r'

/-- The characters Python's `str.strip()` removes (`str.isspace()`). -/
def isPyWs (c : Char) : Bool :=
  c == ' ' || c == '\t' || c == '\n' || c == '\r' || c == '\x0b' || c == '\x0c' ||
  c == '\x1c' || c == '\x1d' || c == '\x1e' || c == '\x1f' || c == '\x85' ||
  c == '\xa0' || c == '\u1680' || ('\u2000' ≤ c && c ≤ '\u200a') ||
  c == '\u2028' || c == '\u2029' || c == '\u202f' || c == '\u205f' || c == '\u3000'

/-- Leading half of `str.strip()`. -/
def trimLead (l : List Char) : List Char := l.dropWhile isPyWs

/-- Trailing half of `str.strip()`. -/
def trimTrail (l : List Char) : List Char := (l.reverse.dropWhile isPyWs).reverse

/-- Python `str.strip()`: drop whitespace from both ends. -/
def pyStrip (l : List Char) : List Char := trimTrail (trimLead l)

/-! ## The sanitizer (server.py lines 231-238) -/

/-- The generic fence delimiter: three backticks. -/
def ticks : List Char := ['\x60', '\x60', '\x60']

/-- The JSON-tagged fence opener `"` ++ ticks ++ `json"` (7 characters). -/
def jsonFence : List Char := ['\x60', '\x60', '\x60', 'j', 's', 'o', 'n']

/-- Transliteration of the fence-stripping block:
```
content = content.strip()
if content.startswith("```json"): content = content[7:]
if content.startswith("```"):     content = content[3:]
if content.endswith("```"):       content = content[:-3]
content = content.strip()
```
The two opener tests are sequential `if` statements (the second examines the
text left by the first), and the closer test examines the text left by both.
-/
def sanitize (raw : List Char) : List Char :=
  let content := pyStrip raw
  let content := if jsonFence.isPrefixOf content then content.drop 7 else content
  let content := if ticks.isPrefixOf content then content.drop 3 else content
  let content := if ticks.isSuffixOf content then content.take (content.length - 3) else content
  pyStrip content

/-- Removal of a leading JSON-tagged fence opener, as a named step. -/
def removeJsonOpen (t : List Char) : List Char :=
  if jsonFence.isPrefixOf t then t.drop 7 else t

/-- Removal of a leading generic fence opener, as a named step. -/
def removeTicksOpen (t : List Char) : List Char :=
  if ticks.isPrefixOf t then t.drop 3 else t

/-- Removal of a trailing fence closer, as a named step. -/
def removeTicksClose (t : List Char) : List Char :=
  if ticks.isSuffixOf t then t.take (t.length - 3) else t

/-- Modelled from the spec: the §4.2 reading of the sanitizer in which the
JSON-tagged removal and the generic removal are *exclusive alternatives*
(both tested against the trimmed input; at most one fires).  The code under
`src/` is the authority; this definition exists only to compare the spec's
wording with the implementation's sequential behaviour.
-/
def sanitizeSpec (raw : List Char) : List Char :=
  let c1 := pyStrip raw
  let c2 := if jsonFence.isPrefixOf c1 then c1.drop 7
            else if ticks.isPrefixOf c1 then c1.drop 3
            else c1
  let c3 := if ticks.isSuffixOf c2 then c2.take (c2.length - 3) else c2
  pyStrip c3

/-- Wrapping a text in a markdown JSON fence, the shape of §8's property:
`"` ++ ticks ++ `json\n" + t + "\n` ++ ticks ++ `"`. -/
def wrapJsonFence (t : List Char) : List Char :=
  jsonFence ++ '\n' :: (t ++ '\n' :: ticks)

/-! ## JSON values -/

/-- A parsed JSON value (`json.loads` output).  Numbers keep their source
lexeme: no claim inspects numeric values, only shapes.  Objects keep their
members in source order; duplicate keys are resolved last-wins by `jlookup`,
matching Python `dict` construction. -/
inductive Json where
  | null
  | bool (b : Bool)
  | num (lexeme : List Char)
  | str (s : List Char)
  | arr (elems : List Json)
  | obj (members : List (List Char × Json))

/-- Python `dict` lookup for parsed objects: the *last* binding of a key wins,
as when `json.loads` builds a `dict` from duplicate keys. -/
def jlookup (k : List Char) : List (List Char × Json) → Option Json
  | [] => none
  | (k', v) :: ms =>
    match jlookup k ms with
    | some v' => some v'
    | none => if k' = k then some v else none

/-! ## The JSON parser (model of `json.loads`) -/

/-- Skip JSON whitespace. -/
def dropW (l : List Char) : List Char := l.dropWhile isJWs

/-- Value of one hexadecimal digit. -/
def hexVal (c : Char) : Option Nat :=
  if '0' ≤ c ∧ c ≤ '9' then some (c.toNat - '0'.toNat)
  else if 'a' ≤ c ∧ c ≤ 'f' then some (c.toNat - 'a'.toNat + 10)
  else if 'A' ≤ c ∧ c ≤ 'F' then some (c.toNat - 'A'.toNat + 10)
  else none

/-- The single-character string escapes accepted by `json.loads`. -/
def escChar (e : Char) : Option Char :=
  if e = '"' then some '"'
  else if e = '\\' then some '\\'
  else if e = '/' then some '/'
  else if e = 'b' then some '\x08'
  else if e = 'f' then some '\x0c'
  else if e = 'n' then some '\n'
  else if e = 'r' then some '\r'
  else if e = 't' then some '\t'
  else none

/-- Longest digit run at the head of the input. -/
def digitsSpan (l : List Char) : List Char × List Char :=
  (l.takeWhile Char.isDigit, l.dropWhile Char.isDigit)

/-- The JSON integer part: `0`, or a nonzero digit followed by digits. -/
def intLex : List Char → Option (List Char × List Char)
  | [] => none
  | c :: r =>
    if c = '0' then some (['0'], r)
    else if c.isDigit then some (c :: (digitsSpan r).1, (digitsSpan r).2)
    else none

/-- The optional fraction part `.digits`; consumed only when fully formed. -/
def fracLex : List Char → List Char × List Char
  | [] => ([], [])
  | c :: r =>
    if c = '.' ∧ (digitsSpan r).1 ≠ [] then ('.' :: (digitsSpan r).1, (digitsSpan r).2)
    else ([], c :: r)

/-- The optional exponent part `[eE][+-]?digits`; consumed only when fully formed. -/
def expLex : List Char → List Char × List Char
  | [] => ([], [])
  | e :: r =>
    if e = 'e' ∨ e = 'E' then
      match r with
      | [] => ([], e :: r)
      | s :: r2 =>
        if (s = '+' ∨ s = '-') ∧ (digitsSpan r2).1 ≠ [] then
          (e :: s :: (digitsSpan r2).1, (digitsSpan r2).2)
        else if ¬(s = '+' ∨ s = '-') ∧ (digitsSpan r).1 ≠ [] then
          (e :: (digitsSpan r).1, (digitsSpan r).2)
        else ([], e :: r)
    else ([], e :: r)

/-- The fraction and exponent tail after the integer part. -/
def numTail (r1 : List Char) : List Char × List Char :=
  ((fracLex r1).1 ++ (expLex (fracLex r1).2).1, (expLex (fracLex r1).2).2)

/-- An unsigned JSON number lexeme `int frac? exp?`. -/
def numCore (t : List Char) : Option (List Char × List Char) :=
  match intLex t with
  | none => none
  | some (i, r1) => some (i ++ (numTail r1).1, (numTail r1).2)

/-- A JSON number lexeme `-?int frac? exp?`. -/
def numLex : List Char → Option (List Char × List Char)
  | [] => none
  | c :: r =>
    if c = '-' then (numCore r).map fun p => ('-' :: p.1, p.2)
    else numCore (c :: r)

mutual

/-- Parse one JSON value.  The input starts at a non-whitespace character
(whitespace is skipped at each call site, as the tokenizer does); the returned
rest is everything after the value. -/
def parseVal : Nat → List Char → Option (Json × List Char)
  | 0, _ => none
  | _ + 1, [] => none
  | f + 1, c :: r =>
    if c = '\x7b' then parseObjBody f r
    else if c = '[' then parseArrBody f r
    -- (the bodies decrement the fuel again; `fuelFor` stays ample)
    else if c = '"' then
      (parseStr f r).map fun p => (Json.str p.1, p.2)
    else if c = 't' then
      if r.take 3 = ['r', 'u', 'e'] then some (Json.bool true, r.drop 3) else none
    else if c = 'f' then
      if r.take 4 = ['a', 'l', 's', 'e'] then some (Json.bool false, r.drop 4) else none
    else if c = 'n' then
      if r.take 3 = ['u', 'l', 'l'] then some (Json.null, r.drop 3) else none
    else if c = '-' ∨ c.isDigit then
      (numLex (c :: r)).map fun p => (Json.num p.1, p.2)
    else none

/-- The body of an object after its `\x7b`: either an immediate `\x7d`, or
one-or-more members. -/
def parseObjBody : Nat → List Char → Option (Json × List Char)
  | 0, _ => none
  | f + 1, t =>
    match dropW t with
    | '\x7d' :: r' => some (Json.obj [], r')
    | l' => (parseMembers f l').map fun p => (Json.obj p.1, p.2)

/-- The body of an array after its `[`: either an immediate `]`, or
one-or-more items. -/
def parseArrBody : Nat → List Char → Option (Json × List Char)
  | 0, _ => none
  | f + 1, t =>
    match dropW t with
    | ']' :: r' => some (Json.arr [], r')
    | l' => (parseItems f l').map fun p => (Json.arr p.1, p.2)

/-- Parse the one-or-more `"key": value` members of a nonempty object; the
input starts at the first key's opening quote, the rest starts after `}`. -/
def parseMembers : Nat → List Char → Option (List (List Char × Json) × List Char)
  | 0, _ => none
  | f + 1, l =>
    match l with
    | '"' :: r =>
      match parseStr f r with
      | none => none
      | some (k, r1) =>
        match dropW r1 with
        | ':' :: r2 =>
          match parseVal f (dropW r2) with
          | none => none
          | some (v, r3) =>
            match dropW r3 with
            | ',' :: r4 => (parseMembers f (dropW r4)).map fun p => ((k, v) :: p.1, p.2)
            | '\x7d' :: r4 => some ([(k, v)], r4)
            | _ => none
        | _ => none
    | _ => none

/-- Parse the one-or-more comma-separated items of a nonempty array; the rest
starts after `]`. -/
def parseItems : Nat → List Char → Option (List Json × List Char)
  | 0, _ => none
  | f + 1, l =>
    match parseVal f l with
    | none => none
    | some (v, r1) =>
      match dropW r1 with
      | ',' :: r2 => (parseItems f (dropW r2)).map fun p => (v :: p.1, p.2)
      | ']' :: r2 => some ([v], r2)
      | _ => none

/-- Parse a string body (after the opening quote), decoding escapes and
rejecting raw control characters, as strict-mode `json.loads` does. -/
def parseStr : Nat → List Char → Option (List Char × List Char)
  | 0, _ => none
  | _ + 1, [] => none
  | f + 1, c :: r =>
    if c = '"' then some ([], r)
    else if c = '\\' then
      match r with
      | [] => none
      | e :: r2 =>
        if e = 'u' then
          match r2 with
          | h1 :: h2 :: h3 :: h4 :: r3 =>
            match hexVal h1, hexVal h2, hexVal h3, hexVal h4 with
            | some a, some b, some c', some d =>
              let n := ((a * 16 + b) * 16 + c') * 16 + d
              if 0xD800 ≤ n ∧ n < 0xE000 then none
              else (parseStr f r3).map fun p => (Char.ofNat n :: p.1, p.2)
            | _, _, _, _ => none
          | _ => none
        else
          match escChar e with
          | none => none
          | some ec => (parseStr f r2).map fun p => (ec :: p.1, p.2)
    else if c.toNat < 32 then none
    else (parseStr f r).map fun p => (c :: p.1, p.2)

end

/-- Fuel bound for `parseVal`: generous, since any two nested calls consume at
least one character, so recursion depth never exceeds `4 * length + 4`. -/
def fuelFor (l : List Char) : Nat := 4 * l.length + 4

/-- Model of `json.loads`: skip leading whitespace, parse one value, and
require that nothing but whitespace follows; `none` is a `JSONDecodeError`. -/
def jsonLoads (l : List Char) : Option Json :=
  let t := dropW l
  match parseVal (fuelFor t) t with
  | none => none
  | some (j, r) => if dropW r = [] then some j else none

/-! ## The pydantic models (server.py lines 93-126) -/

/-- Model of `class ICD10Code(BaseModel)`. -/
structure ICD10Code where
  condition : List Char
  code : List Char
deriving DecidableEq, Repr

/-- Model of `class MedicationInteraction(BaseModel)`. -/
structure MedicationInteraction where
  drug_a : List Char
  drug_b : List Char
  severity : List Char
  note : List Char
deriving DecidableEq, Repr

/-- Model of `class ClinicalOutput(BaseModel)`: the nine-field clinical document. -/
structure ClinicalOutput where
  subjective : List Char
  objective : List Char
  assessment : List Char
  plan : List Char
  icd10_codes : List ICD10Code
  medication_interactions : List MedicationInteraction
  red_flags : List (List Char)
  non_verbal_signs : List (List Char)
  clinical_summary : List Char
deriving DecidableEq, Repr

def kSubjective : List Char := "subjective".toList
def kObjective : List Char := "objective".toList
def kAssessment : List Char := "assessment".toList
def kPlan : List Char := "plan".toList
def kIcd : List Char := "icd10_codes".toList
def kMed : List Char := "medication_interactions".toList
def kRed : List Char := "red_flags".toList
def kNon : List Char := "non_verbal_signs".toList
def kSummary : List Char := "clinical_summary".toList
def kCondition : List Char := "condition".toList
def kCode : List Char := "code".toList
def kDrugA : List Char := "drug_a".toList
def kDrugB : List Char := "drug_b".toList
def kSeverity : List Char := "severity".toList
def kNote : List Char := "note".toList

/-- The nine required top-level field names of the schema. -/
def requiredKeys : List (List Char) :=
  [kSubjective, kObjective, kAssessment, kPlan, kIcd, kMed, kRed, kNon, kSummary]

/-- A JSON string, exactly (pydantic v2 does not coerce numbers or booleans
into `str` fields). -/
def asStr : Json → Option (List Char)
  | .str s => some s
  | _ => none

/-- Element-wise validation of a list; any failing element fails the whole
list, as pydantic validates `List[...]` fields. -/
def omap (f : α → Option β) : List α → Option (List β)
  | [] => some []
  | a :: l =>
    match f a, omap f l with
    | some b, some bs => some (b :: bs)
    | _, _ => none

/-- A JSON array of strings. -/
def asStrList : Json → Option (List (List Char))
  | .arr xs => omap asStr xs
  | _ => none

/-- One `icd10_codes` element: an object with string `condition` and `code`
(extra keys ignored, per pydantic's default). -/
def asICD : Json → Option ICD10Code
  | .obj m =>
    match (jlookup kCondition m).bind asStr, (jlookup kCode m).bind asStr with
    | some a, some b => some ⟨a, b⟩
    | _, _ => none
  | _ => none

/-- One `medication_interactions` element. -/
def asMed : Json → Option MedicationInteraction
  | .obj m =>
    match (jlookup kDrugA m).bind asStr, (jlookup kDrugB m).bind asStr,
          (jlookup kSeverity m).bind asStr, (jlookup kNote m).bind asStr with
    | some a, some b, some c, some d => some ⟨a, b, c, d⟩
    | _, _, _, _ => none
  | _ => none

/-- A JSON array of `icd10_codes` elements. -/
def asICDList : Json → Option (List ICD10Code)
  | .arr xs => omap asICD xs
  | _ => none

/-- A JSON array of `medication_interactions` elements. -/
def asMedList : Json → Option (List MedicationInteraction)
  | .arr xs => omap asMed xs
  | _ => none

/-- `ClinicalOutput(**clinical_data)` (server.py line 244): requires a JSON
object (`**` of a non-mapping raises, caught by the catch-all handler), then
every declared field present with its declared shape; unknown top-level keys
are ignored; any missing or mistyped field fails the whole model, with no
defaulting.
-/
def validate (j : Json) : Option ClinicalOutput :=
  match j with
  | .obj m =>
    match (jlookup kSubjective m).bind asStr, (jlookup kObjective m).bind asStr,
          (jlookup kAssessment m).bind asStr, (jlookup kPlan m).bind asStr,
          (jlookup kIcd m).bind asICDList, (jlookup kMed m).bind asMedList,
          (jlookup kRed m).bind asStrList, (jlookup kNon m).bind asStrList,
          (jlookup kSummary m).bind asStr with
    | some s1, some s2, some s3, some s4, some i5, some m6, some r7, some n8, some s9 =>
      some ⟨s1, s2, s3, s4, i5, m6, r7, n8, s9⟩
    | _, _, _, _, _, _, _, _, _ => none
  | _ => none

/-! ## The orchestrator (server.py lines 174-263) -/

/-- The two `except` branches of `generate_clinical_notes`:
`parseFailure` is the dedicated `json.JSONDecodeError` handler
("Failed to parse LLM response", the spec's `ParseError`); `generalFailure`
is the catch-all `except Exception` handler ("Clinical notes generation
failed", which carries the spec's `SchemaError` among others). -/
inductive NoteError where
  | parseFailure
  | generalFailure
deriving DecidableEq, Repr

/-- Sanitize-then-parse-then-validate, the spec's `validate ∘ sanitize`
failure structure on a given (already extracted) completion text. -/
def runValidate (s : List Char) : Except NoteError ClinicalOutput :=
  match jsonLoads s with
  | none => .error .parseFailure
  | some j =>
    match validate j with
    | none => .error .generalFailure
    | some d => .ok d

/-- Model of `class TranscriptionRequest(BaseModel)`: the `/generate-notes` body. -/
structure TranscriptionRequest where
  transcript : List Char
  observed_actions : List Char

/-- Model of `class ClinicalNote(BaseModel)`, the persisted record, restricted to its
deterministic fields; `id` (a fresh uuid hex) and `timestamp` (now, UTC) are
generated nondeterministically at construction and are not modelled. -/
structure ClinicalNote where
  transcript : List Char
  observed_actions : List Char
  clinical_output : Json

/-- One element of `chat_resp.choices`: either an attribute-style object whose
`message.content` may be `None`, or a plain `dict` with optional
`message.content` and `text` entries. -/
inductive ChatChoice where
  | objChoice (content : Option (List Char))
  | dictChoice (messageContent : Option (List Char)) (text : Option (List Char))

/-- The completion provider's response envelope; `strRep` models the Python
`str(chat_resp)` fallback text. -/
structure ChatResp where
  choices : List ChatChoice
  strRep : List Char

/-- The envelope probing of lines 221-225:
an attribute-style choice contributes `choice.message.content` whenever it is
not `None` (even when empty); a `dict` choice contributes
`choice.get("message", {}).get("content") or choice.get("text")`, where
Python's `or` lets a present-but-empty content fall through to `text`.
`none` means the code reaches `content is None`.
-/
def choiceText : ChatChoice → Option (List Char)
  | .objChoice c => c
  | .dictChoice m t =>
    match m with
    | some s => if s = [] then t else some s
    | none => t

/-- The extracted completion text: `choices[0]` (whose absence raises, hence
`none` here), with the `str(chat_resp)` final fallback of line 228 applied. -/
def contentOf (resp : ChatResp) : Option (List Char) :=
  resp.choices.head?.map fun ch => (choiceText ch).getD resp.strRep

/-- Lines 230-256 given the extracted content: sanitize, `json.loads`
(`JSONDecodeError` → the dedicated handler), `ClinicalOutput(**clinical_data)`
(failure → the catch-all), then build the `ClinicalNote` from the request and
the *raw parsed dict* and attempt the insert.  `insertFails` is the outcome of
`db.clinical_notes.insert_one`: when it raises, the exception reaches the
catch-all handler, after the insert was attempted.  The second component lists
the insert attempts. -/
def notesFromContent (req : TranscriptionRequest) (content : List Char)
    (insertFails : Bool) : Except NoteError ClinicalOutput × List ClinicalNote :=
  match jsonLoads (sanitize content) with
  | none => (.error .parseFailure, [])
  | some clinical_data =>
    match validate clinical_data with
    | none => (.error .generalFailure, [])
    | some validated =>
      let note : ClinicalNote := ⟨req.transcript, req.observed_actions, clinical_data⟩
      if insertFails then (.error .generalFailure, [note])
      else (.ok validated, [note])

/-- The rest of `generate_clinical_notes` from the provider response on: extract the
completion text from the envelope (an envelope with no `choices` raises
`IndexError` into the catch-all), then run the extraction pipeline. -/
def generate_clinical_notes (req : TranscriptionRequest) (resp : ChatResp)
    (insertFails : Bool) : Except NoteError ClinicalOutput × List ClinicalNote :=
  match contentOf resp with
  | none => (.error .generalFailure, [])
  | some content => notesFromContent req content insertFails

/-! ## The transcription path (server.py lines 133-172) -/

/-- The speech-to-text response envelope: `isDict` selects the `dict` shape
(`getattr(transcription, "text", None)` is `None` on a `dict`; `.get("text")`
raises on a non-`dict` and is guarded by `isinstance`); `dumps` models
`json.dumps(transcription, default=str)`. -/
structure TranscribeResp where
  isDict : Bool
  text : Option (List Char)
  dumps : List Char

/-- Line 157: `getattr(transcription, "text", None) or (transcription.get("text")
if isinstance(transcription, dict) else None)`.  Python's `or` makes an
attribute-style empty string fall through to the (absent) dict branch. -/
def extractedTranscript (r : TranscribeResp) : Option (List Char) :=
  let a : Option (List Char) := if r.isDict then none else r.text
  let b : Option (List Char) := if r.isDict then r.text else none
  match a with
  | some s => if s = [] then b else some s
  | none => b

/-- Model of `class TranscriptionResponse(BaseModel)`. -/
structure TranscriptionResponse where
  transcript : List Char
deriving DecidableEq, Repr

/-- Lines 157-168 of `transcribe_audio`: if no text was extracted from the
envelope, fall back to `json.dumps(transcription, default=str)` (line 160) and
still return a `TranscriptionResponse`; the envelope shape alone never raises. -/
def transcribe_audio (r : TranscribeResp) : Except NoteError TranscriptionResponse :=
  .ok ⟨(extractedTranscript r).getD r.dumps⟩

/-- The nine members of the serialized HTTP response
(`response_model=ClinicalOutput`): exactly the schema fields, nothing else. -/
def responseMembers (d : ClinicalOutput) : List (List Char × Json) :=
  [(kSubjective, .str d.subjective), (kObjective, .str d.objective),
   (kAssessment, .str d.assessment), (kPlan, .str d.plan),
   (kIcd, .arr (d.icd10_codes.map fun c =>
      .obj [(kCondition, .str c.condition), (kCode, .str c.code)])),
   (kMed, .arr (d.medication_interactions.map fun c =>
      .obj [(kDrugA, .str c.drug_a), (kDrugB, .str c.drug_b),
            (kSeverity, .str c.severity), (kNote, .str c.note)])),
   (kRed, .arr (d.red_flags.map .str)), (kNon, .arr (d.non_verbal_signs.map .str)),
   (kSummary, .str d.clinical_summary)]

/-! ## Whitespace and trimming lemmas -/

theorem jws_pyws {c : Char} (h : isJWs c = true) : isPyWs c = true := by
  simp only [isJWs, Bool.or_eq_true, beq_iff_eq] at h
  rcases h with ((h | h) | h) | h <;> subst h <;> decide

theorem dropWhile_head_false {p : Char → Bool} {l r : List Char} {c : Char}
    (h : l.dropWhile p = c :: r) : p c = false := by
  induction l with
  | nil => simp at h
  | cons a t ih =>
    by_cases hp : p a
    · rw [List.dropWhile_cons_of_pos hp] at h; exact ih h
    · rw [List.dropWhile_cons_of_neg hp] at h
      cases h
      simpa using hp

theorem dropWhile_cons_false {p : Char → Bool} {l : List Char} {c : Char}
    (h : p c = false) : (c :: l).dropWhile p = c :: l := by
  simp [List.dropWhile_cons, h]

theorem suffix_getLast? {l t : List Char} (h : l <:+ t) (hne : l ≠ []) :
    t.getLast? = l.getLast? := by
  rw [List.getLast?_eq_head?_reverse, List.getLast?_eq_head?_reverse]
  obtain ⟨u, hu⟩ := List.reverse_prefix.mpr h
  rw [← hu]
  cases hl : l.reverse with
  | nil => exact absurd (by simpa using congrArg List.reverse hl) hne
  | cons c r => rfl

theorem exists_getLast_of_ne_nil {l : List Char} (h : l ≠ []) :
    ∃ c, l.getLast? = some c ∧ c ∈ l := by
  rcases List.eq_nil_or_concat l with rfl | ⟨u, a, rfl⟩
  · exact absurd rfl h
  · exact ⟨a, by simp [List.concat_eq_append, List.getLast?_concat], by simp⟩

theorem trimLead_head {s : List Char} {c : Char} {r : List Char}
    (h : trimLead s = c :: r) : isPyWs c = false :=
  dropWhile_head_false h

theorem trimTrail_prefix (l : List Char) : trimTrail l <+: l := by
  have h : l.reverse.dropWhile isPyWs <:+ l.reverse := List.dropWhile_suffix isPyWs
  have h2 : (l.reverse.dropWhile isPyWs).reverse <+: l.reverse.reverse :=
    List.reverse_prefix.mpr h
  rw [List.reverse_reverse] at h2
  exact h2

theorem trimTrail_getLast {l : List Char} {c : Char}
    (h : (trimTrail l).getLast? = some c) : isPyWs c = false := by
  rw [List.getLast?_eq_head?_reverse, trimTrail, List.reverse_reverse] at h
  cases hd : l.reverse.dropWhile isPyWs with
  | nil => rw [hd] at h; simp at h
  | cons a t =>
    rw [hd] at h
    simp only [List.head?_cons, Option.some.injEq] at h
    exact h ▸ dropWhile_head_false hd

theorem pyStrip_head {s : List Char} {c : Char} {r : List Char}
    (h : pyStrip s = c :: r) : isPyWs c = false := by
  have hpre := trimTrail_prefix (trimLead s)
  rw [pyStrip] at h
  rw [h] at hpre
  obtain ⟨u, hu⟩ := hpre
  exact trimLead_head hu.symm

theorem pyStrip_getLast {s : List Char} {c : Char}
    (h : (pyStrip s).getLast? = some c) : isPyWs c = false :=
  trimTrail_getLast h

theorem trimLead_eq_self {l : List Char}
    (h : ∀ c r, l = c :: r → isPyWs c = false) : trimLead l = l := by
  cases l with
  | nil => rfl
  | cons a t => exact dropWhile_cons_false (h a t rfl)

theorem trimTrail_eq_self {l : List Char}
    (h : ∀ c, l.getLast? = some c → isPyWs c = false) : trimTrail l = l := by
  rw [trimTrail]
  cases hr : l.reverse with
  | nil => simpa using congrArg List.reverse hr
  | cons a t =>
    have ha : isPyWs a = false := by
      apply h
      rw [List.getLast?_eq_head?_reverse, hr]; rfl
    rw [dropWhile_cons_false ha, ← hr, List.reverse_reverse]

theorem pyStrip_idem (s : List Char) : pyStrip (pyStrip s) = pyStrip s := by
  have h1 : trimLead (pyStrip s) = pyStrip s :=
    trimLead_eq_self fun c r h => pyStrip_head h
  rw [pyStrip, h1]
  exact trimTrail_eq_self fun c h => pyStrip_getLast h

theorem trimTrail_concat_ws {a : Char} (ha : isPyWs a = true) (l : List Char) :
    trimTrail (l ++ [a]) = trimTrail l := by
  rw [trimTrail, trimTrail, List.reverse_append]
  simp [List.dropWhile_cons, ha]

theorem strip_drop_concat_ws {b : Char} (hb : isPyWs b = true) :
    ∀ t : List Char,
      trimTrail (List.dropWhile isPyWs (t ++ [b])) = trimTrail (List.dropWhile isPyWs t)
  | [] => by simp [List.dropWhile_cons, hb, trimTrail]
  | c :: t => by
    by_cases hc : isPyWs c
    · rw [List.cons_append, List.dropWhile_cons_of_pos hc, List.dropWhile_cons_of_pos hc]
      exact strip_drop_concat_ws hb t
    · rw [List.cons_append, dropWhile_cons_false (by simpa using hc),
        dropWhile_cons_false (by simpa using hc)]
      exact trimTrail_concat_ws hb (c :: t)

theorem pyStrip_ws_wrap {a b : Char} (ha : isPyWs a = true) (hb : isPyWs b = true)
    (t : List Char) : pyStrip (a :: (t ++ [b])) = pyStrip t := by
  rw [pyStrip, pyStrip, trimLead, List.dropWhile_cons_of_pos ha, trimLead]
  exact strip_drop_concat_ws hb t

/-! ## Parser structural lemmas: the rest is a suffix of the input -/

theorem suffix_cons_trans {l r : List Char} {c : Char} (h : l <:+ r) : l <:+ c :: r :=
  h.trans (List.suffix_cons c r)

theorem dropW_suffix (l : List Char) : dropW l <:+ l := List.dropWhile_suffix isJWs

theorem digitsSpan_suffix (l : List Char) : (digitsSpan l).2 <:+ l :=
  List.dropWhile_suffix Char.isDigit

theorem intLex_suffix {l i r : List Char} (h : intLex l = some (i, r)) : r <:+ l := by
  cases l with
  | nil => simp [intLex] at h
  | cons c t =>
    simp only [intLex] at h
    split at h
    · simp only [Option.some.injEq, Prod.mk.injEq] at h
      obtain ⟨-, rfl⟩ := h
      exact List.suffix_cons c t
    · split at h
      · simp only [Option.some.injEq, Prod.mk.injEq] at h
        obtain ⟨-, rfl⟩ := h
        exact suffix_cons_trans (digitsSpan_suffix t)
      · exact absurd h (by simp)

theorem fracLex_suffix (l : List Char) : (fracLex l).2 <:+ l := by
  cases l with
  | nil => exact List.suffix_refl _
  | cons c t =>
    rw [fracLex]
    split
    · exact suffix_cons_trans (digitsSpan_suffix t)
    · exact List.suffix_refl _

theorem expLex_suffix (l : List Char) : (expLex l).2 <:+ l := by
  cases l with
  | nil => exact List.suffix_refl _
  | cons e t =>
    simp only [expLex]
    split
    · cases t with
      | nil => exact List.suffix_refl _
      | cons s r2 =>
        simp only
        split
        · exact suffix_cons_trans (suffix_cons_trans (digitsSpan_suffix r2))
        · split
          · exact suffix_cons_trans (digitsSpan_suffix (s :: r2))
          · exact List.suffix_refl _
    · exact List.suffix_refl _

theorem numTail_suffix (r1 : List Char) : (numTail r1).2 <:+ r1 :=
  (expLex_suffix (fracLex r1).2).trans (fracLex_suffix r1)

theorem numCore_suffix {t x r : List Char} (h : numCore t = some (x, r)) : r <:+ t := by
  rw [numCore] at h
  split at h
  · exact absurd h (by simp)
  · rename_i i r1 hint
    simp only [Option.some.injEq, Prod.mk.injEq] at h
    obtain ⟨-, rfl⟩ := h
    exact (numTail_suffix r1).trans (intLex_suffix hint)

theorem numLex_suffix {l x r : List Char} (h : numLex l = some (x, r)) : r <:+ l := by
  cases l with
  | nil => simp [numLex] at h
  | cons c t =>
    rw [numLex] at h
    split at h
    · rw [Option.map_eq_some'] at h
      obtain ⟨⟨p1, p2⟩, hp, he⟩ := h
      simp only [Prod.mk.injEq] at he
      obtain ⟨-, rfl⟩ := he
      exact suffix_cons_trans (numCore_suffix hp)
    · exact numCore_suffix h

theorem parseObjBody_suffix_of {f : Nat}
    (hm : ∀ l m r, parseMembers f l = some (m, r) → r <:+ l) :
    ∀ t j r, parseObjBody (f + 1) t = some (j, r) → r <:+ t := by
  intro t j r h
  simp only [parseObjBody] at h
  split at h
  · rename_i r' heq
    simp only [Option.some.injEq, Prod.mk.injEq] at h
    obtain ⟨-, rfl⟩ := h
    exact (List.suffix_cons _ _).trans (heq ▸ dropW_suffix t)
  · rw [Option.map_eq_some'] at h
    obtain ⟨⟨p1, p2⟩, hp, he⟩ := h
    simp only [Prod.mk.injEq] at he
    obtain ⟨-, rfl⟩ := he
    exact (hm _ _ _ hp).trans (dropW_suffix t)

theorem parseArrBody_suffix_of {f : Nat}
    (hi : ∀ l es r, parseItems f l = some (es, r) → r <:+ l) :
    ∀ t j r, parseArrBody (f + 1) t = some (j, r) → r <:+ t := by
  intro t j r h
  simp only [parseArrBody] at h
  split at h
  · rename_i r' heq
    simp only [Option.some.injEq, Prod.mk.injEq] at h
    obtain ⟨-, rfl⟩ := h
    exact (List.suffix_cons _ _).trans (heq ▸ dropW_suffix t)
  · rw [Option.map_eq_some'] at h
    obtain ⟨⟨p1, p2⟩, hp, he⟩ := h
    simp only [Prod.mk.injEq] at he
    obtain ⟨-, rfl⟩ := he
    exact (hi _ _ _ hp).trans (dropW_suffix t)

theorem parseStr_succ_suffix_of {f : Nat}
    (hs : ∀ l s r, parseStr f l = some (s, r) → r <:+ l) :
    ∀ l s r, parseStr (f + 1) l = some (s, r) → r <:+ l := by
  intro l s r h
  cases l with
  | nil => simp [parseStr] at h
  | cons c t =>
    simp only [parseStr] at h
    repeat' split at h
    all_goals first
      | exact Option.noConfusion h
      | (simp only [Option.some.injEq, Prod.mk.injEq] at h
         obtain ⟨-, rfl⟩ := h
         exact List.suffix_cons c t)
      | (rw [Option.map_eq_some'] at h
         obtain ⟨⟨p1, p2⟩, hp, he⟩ := h
         simp only [Prod.mk.injEq] at he
         obtain ⟨-, rfl⟩ := he
         first
           | exact suffix_cons_trans (hs _ _ _ hp)
           | exact suffix_cons_trans (suffix_cons_trans (hs _ _ _ hp))
           | exact suffix_cons_trans (suffix_cons_trans (suffix_cons_trans
               (suffix_cons_trans (suffix_cons_trans (suffix_cons_trans (hs _ _ _ hp)))))))

theorem parseVal_succ_suffix_of {f : Nat}
    (hob : ∀ t j r, parseObjBody f t = some (j, r) → r <:+ t)
    (hab : ∀ t j r, parseArrBody f t = some (j, r) → r <:+ t)
    (hs : ∀ l s r, parseStr f l = some (s, r) → r <:+ l) :
    ∀ l j r, parseVal (f + 1) l = some (j, r) → r <:+ l := by
  intro l j r h
  cases l with
  | nil => simp [parseVal] at h
  | cons c t =>
    simp only [parseVal] at h
    repeat' split at h
    all_goals first
      | exact Option.noConfusion h
      | exact suffix_cons_trans (hob _ _ _ h)
      | exact suffix_cons_trans (hab _ _ _ h)
      | (simp only [Option.some.injEq, Prod.mk.injEq] at h
         obtain ⟨-, rfl⟩ := h
         first
           | exact suffix_cons_trans (List.drop_suffix 3 t)
           | exact suffix_cons_trans (List.drop_suffix 4 t))
      | (rw [Option.map_eq_some'] at h
         obtain ⟨⟨p1, p2⟩, hp, he⟩ := h
         simp only [Prod.mk.injEq] at he
         obtain ⟨-, rfl⟩ := he
         first
           | exact suffix_cons_trans (hs _ _ _ hp)
           | exact numLex_suffix hp)

theorem parseItems_succ_suffix_of {f : Nat}
    (hv : ∀ l j r, parseVal f l = some (j, r) → r <:+ l)
    (hi : ∀ l es r, parseItems f l = some (es, r) → r <:+ l) :
    ∀ l es r, parseItems (f + 1) l = some (es, r) → r <:+ l := by
  intro l es r h
  simp only [parseItems] at h
  split at h
  · exact Option.noConfusion h
  · rename_i v r1 hp1
    split at h
    · rename_i r2 heq2
      rw [Option.map_eq_some'] at h
      obtain ⟨⟨p1, p2⟩, hp, he⟩ := h
      simp only [Prod.mk.injEq] at he
      obtain ⟨-, rfl⟩ := he
      have c1 : p2 <:+ r2 := (hi _ _ _ hp).trans (dropW_suffix r2)
      have c2 : p2 <:+ r1 := (suffix_cons_trans c1).trans (heq2 ▸ dropW_suffix r1)
      exact c2.trans (hv _ _ _ hp1)
    · rename_i r2 heq2
      simp only [Option.some.injEq, Prod.mk.injEq] at h
      obtain ⟨-, rfl⟩ := h
      have c1 : r2 <:+ r1 := (List.suffix_cons ']' r2).trans (heq2 ▸ dropW_suffix r1)
      exact c1.trans (hv _ _ _ hp1)
    · exact Option.noConfusion h

theorem parseMembers_succ_suffix_of {f : Nat}
    (hs : ∀ l s r, parseStr f l = some (s, r) → r <:+ l)
    (hv : ∀ l j r, parseVal f l = some (j, r) → r <:+ l)
    (hm : ∀ l m r, parseMembers f l = some (m, r) → r <:+ l) :
    ∀ l m r, parseMembers (f + 1) l = some (m, r) → r <:+ l := by
  intro l m r h
  rw [parseMembers.eq_def] at h
  simp only [] at h
  split at h
  · rename_i rr
    split at h
    · exact Option.noConfusion h
    · rename_i k r1 hp1
      split at h
      · rename_i r2 heq2
        split at h
        · exact Option.noConfusion h
        · rename_i v r3 hp3
          split at h
          · rename_i r4 heq4
            rw [Option.map_eq_some'] at h
            obtain ⟨⟨p1, p2⟩, hp, he⟩ := h
            simp only [Prod.mk.injEq] at he
            obtain ⟨-, rfl⟩ := he
            have c1 : p2 <:+ r4 := (hm _ _ _ hp).trans (dropW_suffix r4)
            have c2 : p2 <:+ r3 := (suffix_cons_trans c1).trans (heq4 ▸ dropW_suffix r3)
            have c3 : p2 <:+ r2 := (c2.trans (hv _ _ _ hp3)).trans (dropW_suffix r2)
            have c4 : p2 <:+ r1 := (suffix_cons_trans c3).trans (heq2 ▸ dropW_suffix r1)
            exact suffix_cons_trans (c4.trans (hs _ _ _ hp1))
          · rename_i r4 heq4
            simp only [Option.some.injEq, Prod.mk.injEq] at h
            obtain ⟨-, rfl⟩ := h
            have c1 : r4 <:+ r3 := (List.suffix_cons '\x7d' r4).trans (heq4 ▸ dropW_suffix r3)
            have c3 : r4 <:+ r2 := (c1.trans (hv _ _ _ hp3)).trans (dropW_suffix r2)
            have c4 : r4 <:+ r1 := (suffix_cons_trans c3).trans (heq2 ▸ dropW_suffix r1)
            exact suffix_cons_trans (c4.trans (hs _ _ _ hp1))
          · exact Option.noConfusion h
      · exact Option.noConfusion h
  · exact Option.noConfusion h

theorem parse_suffix (f : Nat) :
    (∀ l s r, parseStr f l = some (s, r) → r <:+ l) ∧
    (∀ l m r, parseMembers f l = some (m, r) → r <:+ l) ∧
    (∀ l es r, parseItems f l = some (es, r) → r <:+ l) ∧
    (∀ t j r, parseObjBody f t = some (j, r) → r <:+ t) ∧
    (∀ t j r, parseArrBody f t = some (j, r) → r <:+ t) ∧
    (∀ l j r, parseVal f l = some (j, r) → r <:+ l) := by
  induction f with
  | zero =>
    refine ⟨?_, ?_, ?_, ?_, ?_, ?_⟩ <;> intro l a r h <;>
      simp [parseStr, parseMembers, parseItems, parseObjBody, parseArrBody, parseVal] at h
  | succ f ih =>
    obtain ⟨hs, hm, hi, hob, hab, hv⟩ := ih
    exact ⟨parseStr_succ_suffix_of hs, parseMembers_succ_suffix_of hs hv hm,
      parseItems_succ_suffix_of hv hi, parseObjBody_suffix_of hm,
      parseArrBody_suffix_of hi, parseVal_succ_suffix_of hob hab hs⟩

theorem parseVal_suffix {f : Nat} {l : List Char} {j : Json} {r : List Char}
    (h : parseVal f l = some (j, r)) : r <:+ l :=
  (parse_suffix f).2.2.2.2.2 l j r h

theorem parseMembers_suffix {f : Nat} {l : List Char} {m : List (List Char × Json)}
    {r : List Char} (h : parseMembers f l = some (m, r)) : r <:+ l :=
  (parse_suffix f).2.1 l m r h

theorem parseMembers_close {f : Nat} :
    ∀ {l : List Char} {m : List (List Char × Json)} {r : List Char},
      parseMembers f l = some (m, r) → '\x7d' :: r <:+ l := by
  induction f with
  | zero => intro l m r h; simp [parseMembers] at h
  | succ f ih =>
    intro l m r h
    rw [parseMembers.eq_def] at h
    simp only [] at h
    split at h
    · rename_i rr
      split at h
      · exact Option.noConfusion h
      · rename_i k r1 hp1
        split at h
        · rename_i r2 heq2
          split at h
          · exact Option.noConfusion h
          · rename_i v r3 hp3
            split at h
            · rename_i r4 heq4
              rw [Option.map_eq_some'] at h
              obtain ⟨⟨p1, p2⟩, hp, he⟩ := h
              simp only [Prod.mk.injEq] at he
              obtain ⟨-, rfl⟩ := he
              have c1 : '\x7d' :: p2 <:+ r4 := (ih hp).trans (dropW_suffix r4)
              have c2 : '\x7d' :: p2 <:+ r3 := (suffix_cons_trans c1).trans (heq4 ▸ dropW_suffix r3)
              have c3 : '\x7d' :: p2 <:+ r2 := (c2.trans (parseVal_suffix hp3)).trans (dropW_suffix r2)
              have c4 : '\x7d' :: p2 <:+ r1 := (suffix_cons_trans c3).trans (heq2 ▸ dropW_suffix r1)
              exact suffix_cons_trans (c4.trans ((parse_suffix f).1 _ _ _ hp1))
            · rename_i r4 heq4
              simp only [Option.some.injEq, Prod.mk.injEq] at h
              obtain ⟨-, rfl⟩ := h
              have c1 : '\x7d' :: r4 <:+ r3 := heq4 ▸ dropW_suffix r3
              have c3 : '\x7d' :: r4 <:+ r2 := (c1.trans (parseVal_suffix hp3)).trans (dropW_suffix r2)
              have c4 : '\x7d' :: r4 <:+ r1 := (suffix_cons_trans c3).trans (heq2 ▸ dropW_suffix r1)
              exact suffix_cons_trans (c4.trans ((parse_suffix f).1 _ _ _ hp1))
            · exact Option.noConfusion h
        · exact Option.noConfusion h
    · exact Option.noConfusion h

theorem parseArrBody_shape {f : Nat} {t : List Char} {j : Json} {r : List Char}
    (h : parseArrBody f t = some (j, r)) : ∃ es, j = Json.arr es := by
  cases f with
  | zero => exact Option.noConfusion h
  | succ f => ?_
  simp only [parseArrBody] at h
  split at h
  · simp only [Option.some.injEq, Prod.mk.injEq] at h
    obtain ⟨h1, -⟩ := h
    exact ⟨[], h1.symm⟩
  · rw [Option.map_eq_some'] at h
    obtain ⟨⟨p1, p2⟩, hp, he⟩ := h
    simp only [Prod.mk.injEq] at he
    exact ⟨p1, he.1.symm⟩

theorem parseVal_obj_head {f : Nat} {l : List Char} {m : List (List Char × Json)}
    {r : List Char} (h : parseVal f l = some (Json.obj m, r)) :
    ∃ t, l = '\x7b' :: t := by
  cases f with
  | zero => simp [parseVal] at h
  | succ f =>
    cases l with
    | nil => simp [parseVal] at h
    | cons c t =>
      simp only [parseVal] at h
      repeat' split at h
      all_goals first
        | exact Option.noConfusion h
        | (obtain ⟨es, hes⟩ := parseArrBody_shape h; exact Json.noConfusion hes)
        | (rw [Option.map_eq_some'] at h
           obtain ⟨⟨p1, p2⟩, hp, he⟩ := h
           simp only [Prod.mk.injEq] at he
           exact Json.noConfusion he.1)
        | (simp only [Option.some.injEq, Prod.mk.injEq] at h
           exact Json.noConfusion h.1)
        | (rename_i hc; exact ⟨t, by rw [hc]⟩)

theorem parseVal_obj_full_last {f : Nat} {l : List Char} {m : List (List Char × Json)}
    (h : parseVal f l = some (Json.obj m, [])) : l.getLast? = some '\x7d' := by
  cases f with
  | zero => simp [parseVal] at h
  | succ f =>
    cases l with
    | nil => simp [parseVal] at h
    | cons c t =>
      simp only [parseVal] at h
      repeat' split at h
      all_goals first
        | exact Option.noConfusion h
        | (obtain ⟨es, hes⟩ := parseArrBody_shape h; exact Json.noConfusion hes)
        | (rw [Option.map_eq_some'] at h
           obtain ⟨⟨p1, p2⟩, hp, he⟩ := h
           simp only [Prod.mk.injEq] at he
           exact Json.noConfusion he.1)
        | (simp only [Option.some.injEq, Prod.mk.injEq] at h
           exact Json.noConfusion h.1)
        | (cases f with
           | zero => exact Option.noConfusion h
           | succ g =>
             simp only [parseObjBody] at h
             split at h
             · rename_i r' heq
               simp only [Option.some.injEq, Prod.mk.injEq] at h
               obtain ⟨-, rfl⟩ := h
               have hsuf : ['\x7d'] <:+ c :: t :=
                 suffix_cons_trans (heq ▸ dropW_suffix t)
               rw [suffix_getLast? hsuf (by simp)]
               rfl
             · rw [Option.map_eq_some'] at h
               obtain ⟨⟨p1, p2⟩, hp, he⟩ := h
               simp only [Prod.mk.injEq] at he
               obtain ⟨-, hp2⟩ := he
               rw [hp2] at hp
               have hsuf : ['\x7d'] <:+ c :: t :=
                 suffix_cons_trans ((parseMembers_close hp).trans (dropW_suffix t))
               rw [suffix_getLast? hsuf (by simp)]
               rfl)

theorem not_pyws_not_jws {c : Char} (h : isPyWs c = false) : isJWs c = false := by
  cases hj : isJWs c with
  | false => rfl
  | true => rw [jws_pyws hj] at h; exact Bool.noConfusion h

theorem dropW_pyStrip (s : List Char) : dropW (pyStrip s) = pyStrip s := by
  cases hp : pyStrip s with
  | nil => rfl
  | cons c r => exact dropWhile_cons_false (not_pyws_not_jws (pyStrip_head hp))

theorem jsonLoads_stripped_full {t : List Char} {j : Json}
    (ht : dropW t = t) (hlast : ∀ c, t.getLast? = some c → isPyWs c = false)
    (h : jsonLoads t = some j) :
    parseVal (fuelFor t) t = some (j, []) := by
  simp only [jsonLoads, ht] at h
  split at h
  · exact Option.noConfusion h
  · rename_i j' r hp
    split at h
    · rename_i hr
      cases h
      rcases List.eq_nil_or_concat r with rfl | ⟨u, a, rfl⟩
      · exact hp
      · exfalso
        rw [List.concat_eq_append] at hr hp
        have hws : ∀ c ∈ u ++ [a], isJWs c = true :=
          List.dropWhile_eq_nil_iff.mp hr
        have ha : isJWs a = true := hws a (by simp)
        have hsuf : u ++ [a] <:+ t := parseVal_suffix hp
        have hl : t.getLast? = some a := by
          rw [suffix_getLast? hsuf (by simp), List.getLast?_concat]
        exact Bool.noConfusion ((hlast a hl).symm.trans (jws_pyws ha))
    · exact Option.noConfusion h

theorem sanitize_eq_pyStrip_of_obj {s : List Char} {m : List (List Char × Json)}
    (h : jsonLoads (pyStrip s) = some (Json.obj m)) : sanitize s = pyStrip s := by
  have ht : dropW (pyStrip s) = pyStrip s := dropW_pyStrip s
  have hfull := jsonLoads_stripped_full ht (fun c hc => pyStrip_getLast hc) h
  obtain ⟨t1, hhead⟩ := parseVal_obj_head hfull
  have hlastbrace := parseVal_obj_full_last hfull
  have hjf : jsonFence.isPrefixOf (pyStrip s) = false := by
    rw [hhead]; simp [jsonFence, List.isPrefixOf]
  have htk : ticks.isPrefixOf (pyStrip s) = false := by
    rw [hhead]; simp [ticks, List.isPrefixOf]
  have hsuf : ticks.isSuffixOf (pyStrip s) = false := by
    cases hq : ticks.isSuffixOf (pyStrip s) with
    | false => rfl
    | true =>
      exfalso
      have hx := List.isSuffixOf_iff_suffix.mp hq
      have hg : (pyStrip s).getLast? = some '\x60' := by
        rw [suffix_getLast? hx (by simp [ticks])]; rfl
      rw [hlastbrace] at hg
      exact absurd (Option.some.inj hg) (by decide)
  simp only [sanitize, hjf, htk, hsuf, if_false, Bool.false_eq_true]
  exact pyStrip_idem s

/-! ## Validation inversion: what a successful `validate` says about the input -/

/-- An `icd10_codes` element agrees with a validated entry: same `condition`
and `code` strings (extra keys may be present and are ignored). -/
def icdAgrees (e : Json) (c : ICD10Code) : Prop :=
  ∃ em, e = Json.obj em ∧ jlookup kCondition em = some (.str c.condition) ∧
    jlookup kCode em = some (.str c.code)

/-- A `medication_interactions` element agrees with a validated entry. -/
def medAgrees (e : Json) (c : MedicationInteraction) : Prop :=
  ∃ em, e = Json.obj em ∧ jlookup kDrugA em = some (.str c.drug_a) ∧
    jlookup kDrugB em = some (.str c.drug_b) ∧
    jlookup kSeverity em = some (.str c.severity) ∧
    jlookup kNote em = some (.str c.note)

/-- Round-trip agreement: every field of the validated `ClinicalOutput` equals
the corresponding field of the parsed object. -/
def fieldsAgree (d : ClinicalOutput) (m : List (List Char × Json)) : Prop :=
  jlookup kSubjective m = some (.str d.subjective) ∧
  jlookup kObjective m = some (.str d.objective) ∧
  jlookup kAssessment m = some (.str d.assessment) ∧
  jlookup kPlan m = some (.str d.plan) ∧
  (∃ items, jlookup kIcd m = some (.arr items) ∧
    List.Forall₂ icdAgrees items d.icd10_codes) ∧
  (∃ items, jlookup kMed m = some (.arr items) ∧
    List.Forall₂ medAgrees items d.medication_interactions) ∧
  (∃ xs, jlookup kRed m = some (.arr xs) ∧
    List.Forall₂ (fun e s => e = Json.str s) xs d.red_flags) ∧
  (∃ xs, jlookup kNon m = some (.arr xs) ∧
    List.Forall₂ (fun e s => e = Json.str s) xs d.non_verbal_signs) ∧
  jlookup kSummary m = some (.str d.clinical_summary)

theorem bind_asStr_some {o : Option Json} {s : List Char}
    (h : o.bind asStr = some s) : o = some (Json.str s) := by
  cases o with
  | none => exact Option.noConfusion h
  | some j =>
    cases j <;> simp only [Option.bind, asStr] at h <;> try exact Option.noConfusion h
    rw [Option.some.inj h]

theorem omap_forall₂ {α β : Type} {f : α → Option β} :
    ∀ {l : List α} {r : List β}, omap f l = some r →
      List.Forall₂ (fun a b => f a = some b) l r := by
  intro l
  induction l with
  | nil =>
    intro r h
    cases Option.some.inj h
    exact List.Forall₂.nil
  | cons a t ih =>
    intro r h
    simp only [omap] at h
    split at h
    · rename_i b bs hfa hrest
      cases Option.some.inj h
      exact List.Forall₂.cons hfa (ih hrest)
    · exact Option.noConfusion h

theorem omap_mem_isSome {α β : Type} {f : α → Option β} {l : List α} {r : List β}
    (h : omap f l = some r) {a : α} (ha : a ∈ l) : (f a).isSome := by
  induction l generalizing r with
  | nil => simp at ha
  | cons x t ih =>
    simp only [omap] at h
    split at h
    · rename_i b bs hfa hrest
      rcases List.mem_cons.mp ha with rfl | hmem
      · simp [hfa]
      · exact ih hrest hmem
    · exact Option.noConfusion h

theorem asStr_some {e : Json} {s : List Char} (h : asStr e = some s) : e = Json.str s := by
  cases e <;> simp only [asStr] at h <;> try exact Option.noConfusion h
  rw [Option.some.inj h]

theorem bind_asStrList_some {o : Option Json} {xs : List (List Char)}
    (h : o.bind asStrList = some xs) :
    ∃ items, o = some (Json.arr items) ∧
      List.Forall₂ (fun e s => e = Json.str s) items xs := by
  cases o with
  | none => exact Option.noConfusion h
  | some j =>
    cases j <;> simp only [Option.bind, asStrList] at h <;> try exact Option.noConfusion h
    rename_i items
    exact ⟨items, rfl, (omap_forall₂ h).imp fun _ _ he => asStr_some he⟩

theorem asICD_some {e : Json} {c : ICD10Code} (h : asICD e = some c) : icdAgrees e c := by
  cases e <;> simp only [asICD] at h <;> try exact Option.noConfusion h
  rename_i em
  split at h
  · rename_i a b ha hb
    cases Option.some.inj h
    exact ⟨em, rfl, bind_asStr_some ha, bind_asStr_some hb⟩
  · exact Option.noConfusion h

theorem asMed_some {e : Json} {c : MedicationInteraction} (h : asMed e = some c) :
    medAgrees e c := by
  cases e <;> simp only [asMed] at h <;> try exact Option.noConfusion h
  rename_i em
  split at h
  · rename_i a b c' d ha hb hc hd
    cases Option.some.inj h
    exact ⟨em, rfl, bind_asStr_some ha, bind_asStr_some hb,
      bind_asStr_some hc, bind_asStr_some hd⟩
  · exact Option.noConfusion h

theorem bind_asICDList_some {o : Option Json} {cs : List ICD10Code}
    (h : o.bind asICDList = some cs) :
    ∃ items, o = some (Json.arr items) ∧ List.Forall₂ icdAgrees items cs := by
  cases o with
  | none => exact Option.noConfusion h
  | some j =>
    cases j <;> simp only [Option.bind, asICDList] at h <;> try exact Option.noConfusion h
    rename_i items
    exact ⟨items, rfl, (omap_forall₂ h).imp fun _ _ he => asICD_some he⟩

theorem bind_asMedList_some {o : Option Json} {cs : List MedicationInteraction}
    (h : o.bind asMedList = some cs) :
    ∃ items, o = some (Json.arr items) ∧ List.Forall₂ medAgrees items cs := by
  cases o with
  | none => exact Option.noConfusion h
  | some j =>
    cases j <;> simp only [Option.bind, asMedList] at h <;> try exact Option.noConfusion h
    rename_i items
    exact ⟨items, rfl, (omap_forall₂ h).imp fun _ _ he => asMed_some he⟩

theorem validate_fields {m : List (List Char × Json)} {d : ClinicalOutput}
    (h : validate (Json.obj m) = some d) : fieldsAgree d m := by
  simp only [validate] at h
  split at h
  · rename_i s1 s2 s3 s4 i5 m6 r7 n8 s9 h1 h2 h3 h4 h5 h6 h7 h8 h9
    cases Option.some.inj h
    obtain ⟨i1, hi1, hf1⟩ := bind_asICDList_some h5
    obtain ⟨i2, hi2, hf2⟩ := bind_asMedList_some h6
    obtain ⟨x1, hx1, hg1⟩ := bind_asStrList_some h7
    obtain ⟨x2, hx2, hg2⟩ := bind_asStrList_some h8
    exact ⟨bind_asStr_some h1, bind_asStr_some h2, bind_asStr_some h3, bind_asStr_some h4,
      ⟨i1, hi1, hf1⟩, ⟨i2, hi2, hf2⟩, ⟨x1, hx1, hg1⟩, ⟨x2, hx2, hg2⟩, bind_asStr_some h9⟩
  · exact Option.noConfusion h

theorem forall₂_left_mem {α β : Type} {R : α → β → Prop} :
    ∀ {l : List α} {r : List β}, List.Forall₂ R l r → ∀ a ∈ l, ∃ b, R a b := by
  intro l r h
  induction h with
  | nil => simp
  | cons hR ht ih =>
    intro a ha
    rcases List.mem_cons.mp ha with rfl | hmem
    · exact ⟨_, hR⟩
    · exact ih a hmem

theorem validate_some_key_isSome {m : List (List Char × Json)} {d : ClinicalOutput}
    (h : validate (Json.obj m) = some d) :
    ∀ k ∈ requiredKeys, (jlookup k m).isSome := by
  obtain ⟨h1, h2, h3, h4, ⟨i1, hi1, -⟩, ⟨i2, hi2, -⟩, ⟨x1, hx1, -⟩, ⟨x2, hx2, -⟩, h9⟩ :=
    validate_fields h
  intro k hk
  simp only [requiredKeys, List.mem_cons, List.not_mem_nil, or_false] at hk
  rcases hk with rfl | rfl | rfl | rfl | rfl | rfl | rfl | rfl | rfl <;>
    simp [h1, h2, h3, h4, hi1, hi2, hx1, hx2, h9]

theorem validate_none_of_missing {m : List (List Char × Json)} {k : List Char}
    (hk : k ∈ requiredKeys) (hnone : jlookup k m = none) :
    validate (Json.obj m) = none := by
  cases hv : validate (Json.obj m) with
  | none => rfl
  | some d =>
    have hsome := validate_some_key_isSome hv k hk
    rw [hnone] at hsome
    exact Bool.noConfusion hsome

theorem icdAgrees_asICD {e : Json} {c : ICD10Code} (h : icdAgrees e c) :
    asICD e = some c := by
  obtain ⟨em, rfl, hc, hcc⟩ := h
  simp [asICD, hc, hcc, asStr]

theorem validate_none_of_bad_icd {m : List (List Char × Json)} {items : List Json}
    {e : Json} (hicd : jlookup kIcd m = some (Json.arr items)) (he : e ∈ items)
    (hbad : asICD e = none) : validate (Json.obj m) = none := by
  cases hv : validate (Json.obj m) with
  | none => rfl
  | some d =>
    obtain ⟨-, -, -, -, ⟨i1, hi1, hf1⟩, -⟩ := validate_fields hv
    rw [hicd] at hi1
    cases Option.some.inj hi1
    obtain ⟨c, hc⟩ := forall₂_left_mem hf1 e he
    rw [icdAgrees_asICD hc] at hbad
    exact Option.noConfusion hbad

theorem medAgrees_asMed {e : Json} {c : MedicationInteraction} (h : medAgrees e c) :
    asMed e = some c := by
  obtain ⟨em, rfl, h1, h2, h3, h4⟩ := h
  simp [asMed, h1, h2, h3, h4, asStr]

theorem validate_none_of_bad_med {m : List (List Char × Json)} {items : List Json}
    {e : Json} (hmed : jlookup kMed m = some (Json.arr items)) (he : e ∈ items)
    (hbad : asMed e = none) : validate (Json.obj m) = none := by
  cases hv : validate (Json.obj m) with
  | none => rfl
  | some d =>
    obtain ⟨-, -, -, -, -, ⟨i2, hi2, hf2⟩, -⟩ := validate_fields hv
    rw [hmed] at hi2
    cases Option.some.inj hi2
    obtain ⟨c, hc⟩ := forall₂_left_mem hf2 e he
    rw [medAgrees_asMed hc] at hbad
    exact Option.noConfusion hbad

/-! ## Sanitizer computation lemmas -/

theorem isPrefixOf_append (a b : List Char) : a.isPrefixOf (a ++ b) = true :=
  List.isPrefixOf_iff_prefix.mpr ⟨b, rfl⟩

theorem isSuffixOf_append (a b : List Char) : b.isSuffixOf (a ++ b) = true :=
  List.isSuffixOf_iff_suffix.mpr ⟨a, rfl⟩

theorem trimTrail_concat_nonws {a : Char} (ha : isPyWs a = false) (l : List Char) :
    trimTrail (l ++ [a]) = l ++ [a] := by
  rw [trimTrail, List.reverse_append]
  simp only [List.reverse_cons, List.reverse_nil, List.nil_append, List.singleton_append]
  rw [dropWhile_cons_false ha]
  simp

theorem pyStrip_wrapJsonFence (t : List Char) :
    pyStrip (wrapJsonFence t) = wrapJsonFence t := by
  have hcons : wrapJsonFence t =
      '\x60' :: ('\x60' :: '\x60' :: 'j' :: 's' :: 'o' :: 'n' :: '\n' ::
        (t ++ ['\n', '\x60', '\x60', '\x60'])) := by
    simp [wrapJsonFence, jsonFence, ticks]
  have hconcat : wrapJsonFence t =
      ('\x60' :: '\x60' :: '\x60' :: 'j' :: 's' :: 'o' :: 'n' :: '\n' ::
        (t ++ ['\n', '\x60', '\x60'])) ++ ['\x60'] := by
    simp [wrapJsonFence, jsonFence, ticks]
  have hdw : ∀ u : List Char, List.dropWhile isPyWs ('\x60' :: u) = '\x60' :: u :=
    fun u => dropWhile_cons_false (by decide)
  have htt : ∀ u : List Char, trimTrail (u ++ ['\x60']) = u ++ ['\x60'] :=
    fun u => trimTrail_concat_nonws (by decide) u
  rw [pyStrip, trimLead, hcons, hdw]
  rw [← hcons, hconcat]
  exact htt _

theorem sanitize_wrapJsonFence (t : List Char) :
    sanitize (wrapJsonFence t) = pyStrip t := by
  have h0 := pyStrip_wrapJsonFence t
  have hpre : jsonFence.isPrefixOf (wrapJsonFence t) = true := by
    rw [wrapJsonFence]; exact isPrefixOf_append _ _
  have hdrop : (wrapJsonFence t).drop 7 = '\n' :: (t ++ '\n' :: ticks) := by
    rw [wrapJsonFence, show 7 = jsonFence.length from rfl]
    exact List.drop_left _ _
  have hnopre : ticks.isPrefixOf ('\n' :: (t ++ '\n' :: ticks)) = false := by
    simp [ticks, List.isPrefixOf]
  have hsplit : '\n' :: (t ++ '\n' :: ticks) = ('\n' :: (t ++ ['\n'])) ++ ticks := by
    simp
  have hsufx : ticks.isSuffixOf ('\n' :: (t ++ '\n' :: ticks)) = true := by
    rw [hsplit]; exact isSuffixOf_append _ _
  have htake : ('\n' :: (t ++ '\n' :: ticks)).take
      (('\n' :: (t ++ '\n' :: ticks)).length - 3) = '\n' :: (t ++ ['\n']) := by
    rw [hsplit]
    have hlen : (('\n' :: (t ++ ['\n'])) ++ ticks).length - 3 =
        ('\n' :: (t ++ ['\n'])).length := by
      simp [ticks]
    rw [hlen]
    exact List.take_left _ _
  rw [sanitize]
  simp only [h0, hpre, if_true, hdrop, hnopre, hsufx, htake, if_false,
    Bool.false_eq_true, Bool.true_eq_false]
  exact pyStrip_ws_wrap (by decide) (by decide) t

theorem sanitize_eq_pyStrip_of_noFence {t : List Char}
    (h1 : ticks.isPrefixOf (pyStrip t) = false)
    (h2 : ticks.isSuffixOf (pyStrip t) = false) : sanitize t = pyStrip t := by
  have hjf : jsonFence.isPrefixOf (pyStrip t) = false := by
    cases hq : jsonFence.isPrefixOf (pyStrip t) with
    | false => rfl
    | true =>
      exfalso
      have hp := List.isPrefixOf_iff_prefix.mp hq
      have : ticks <+: pyStrip t :=
        List.IsPrefix.trans ⟨['j', 's', 'o', 'n'], rfl⟩ hp
      rw [List.isPrefixOf_iff_prefix.mpr this] at h1
      exact Bool.noConfusion h1
  simp only [sanitize, hjf, h1, h2, if_false, Bool.false_eq_true]
  exact pyStrip_idem t

/-! ## Orchestrator bridge lemmas -/

theorem notesFromContent_error {req : TranscriptionRequest} {content : List Char}
    {pf : Bool} {e : NoteError} (h : runValidate (sanitize content) = .error e) :
    notesFromContent req content pf = (.error e, []) := by
  cases hjl : jsonLoads (sanitize content) with
  | none =>
    simp only [runValidate, hjl, Except.error.injEq] at h
    simp only [notesFromContent, hjl, h]
  | some j =>
    cases hv : validate j with
    | none =>
      simp only [runValidate, hjl, hv, Except.error.injEq] at h
      simp only [notesFromContent, hjl, hv, h]
    | some d =>
      simp only [runValidate, hjl, hv] at h
      exact Except.noConfusion h

theorem notesFromContent_success {req : TranscriptionRequest} {content : List Char}
    {pf : Bool} {j : Json} {d : ClinicalOutput}
    (hjl : jsonLoads (sanitize content) = some j) (hv : validate j = some d) :
    notesFromContent req content pf =
      (if pf then .error .generalFailure else .ok d,
       [⟨req.transcript, req.observed_actions, j⟩]) := by
  simp only [notesFromContent, hjl, hv]
  cases pf <;> rfl

theorem generate_notes_content {req : TranscriptionRequest} {resp : ChatResp}
    {pf : Bool} {content : List Char} (h : contentOf resp = some content) :
    generate_clinical_notes req resp pf = notesFromContent req content pf := by
  rw [generate_clinical_notes, h]

theorem jlookup_eq_none {k : List Char} :
    ∀ {m : List (List Char × Json)}, jlookup k m = none ↔ ∀ p ∈ m, p.1 ≠ k := by
  intro m
  induction m with
  | nil => simp [jlookup]
  | cons p ms ih =>
    obtain ⟨k', v⟩ := p
    rw [jlookup]
    split
    · rename_i v' hv'
      constructor
      · exact fun h => Option.noConfusion h
      · intro hall
        have : jlookup k ms = none := ih.mpr fun q hq => hall q (List.mem_cons_of_mem _ hq)
        rw [this] at hv'
        exact Option.noConfusion hv'
    · rename_i hnone
      by_cases hk : k' = k
      · rw [if_pos hk]
        constructor
        · exact fun h => Option.noConfusion h
        · intro hall
          exact absurd hk (hall (k', v) (List.mem_cons_self _ _))
      · rw [if_neg hk]
        constructor
        · intro _ p hp
          rcases List.mem_cons.mp hp with rfl | hmem
          · exact hk
          · exact ih.mp hnone p hmem
        · intro _
          rfl

/-! ## Concrete documents for witnesses and counterexamples -/

/-- A minimal schema-conforming document text (all strings empty, all lists
empty). -/
def minDocText : List Char :=
  ("\x7b\"subjective\":\"\",\"objective\":\"\",\"assessment\":\"\",\"plan\":\"\"," ++
   "\"icd10_codes\":[],\"medication_interactions\":[],\"red_flags\":[]," ++
   "\"non_verbal_signs\":[],\"clinical_summary\":\"\"\x7d").toList

/-- The parse of `minDocText`. -/
def minDocJson : Json :=
  Json.obj [(kSubjective, .str []), (kObjective, .str []), (kAssessment, .str []),
    (kPlan, .str []), (kIcd, .arr []), (kMed, .arr []), (kRed, .arr []),
    (kNon, .arr []), (kSummary, .str [])]

/-- The validated form of `minDocText`. -/
def minDoc : ClinicalOutput := ⟨[], [], [], [], [], [], [], [], []⟩

/-- Variant of `minDocText` with one extra unknown top-level field appended. -/
def extDocText : List Char :=
  ("\x7b\"subjective\":\"\",\"objective\":\"\",\"assessment\":\"\",\"plan\":\"\"," ++
   "\"icd10_codes\":[],\"medication_interactions\":[],\"red_flags\":[]," ++
   "\"non_verbal_signs\":[],\"clinical_summary\":\"\",\"extra\":\"x\"\x7d").toList

/-- The parse of `extDocText`: the nine schema fields plus the unknown one. -/
def extDocJson : Json :=
  Json.obj [(kSubjective, .str []), (kObjective, .str []), (kAssessment, .str []),
    (kPlan, .str []), (kIcd, .arr []), (kMed, .arr []), (kRed, .arr []),
    (kNon, .arr []), (kSummary, .str []), ("extra".toList, .str ['x'])]

/-- An object text missing `clinical_summary` (eight fields only). -/
def missingDocMembers : List (List Char × Json) :=
  [(kSubjective, .str []), (kObjective, .str []), (kAssessment, .str []),
   (kPlan, .str []), (kIcd, .arr []), (kMed, .arr []), (kRed, .arr []),
   (kNon, .arr [])]

/-- An `icd10_codes` element lacking its `code` subfield. -/
def badIcdElem : Json := Json.obj [(kCondition, .str ['c'])]

/-- An `icd10_codes` element whose `code` subfield is mistyped (a number). -/
def typedIcdElem : Json := Json.obj [(kCondition, .str ['c']), (kCode, .num ['1'])]

/-- A `medication_interactions` element lacking its `note` subfield. -/
def badMedElem : Json :=
  Json.obj [(kDrugA, .str ['a']), (kDrugB, .str ['b']), (kSeverity, .str ['s'])]

/-- A complete document whose `icd10_codes` holds one element without `code`. -/
def badIcdMembers : List (List Char × Json) :=
  [(kSubjective, .str []), (kObjective, .str []), (kAssessment, .str []),
   (kPlan, .str []), (kIcd, .arr [badIcdElem]), (kMed, .arr []), (kRed, .arr []),
   (kNon, .arr []), (kSummary, .str [])]

/-- A complete document whose `icd10_codes` holds one element with a numeric
`code`. -/
def typedIcdMembers : List (List Char × Json) :=
  [(kSubjective, .str []), (kObjective, .str []), (kAssessment, .str []),
   (kPlan, .str []), (kIcd, .arr [typedIcdElem]), (kMed, .arr []), (kRed, .arr []),
   (kNon, .arr []), (kSummary, .str [])]

/-- A complete document whose `medication_interactions` holds one element
without `note`. -/
def badMedMembers : List (List Char × Json) :=
  [(kSubjective, .str []), (kObjective, .str []), (kAssessment, .str []),
   (kPlan, .str []), (kIcd, .arr []), (kMed, .arr [badMedElem]), (kRed, .arr []),
   (kNon, .arr []), (kSummary, .str [])]

/-- A request body used in concrete runs. -/
def reqA : TranscriptionRequest := ⟨"t".toList, "o".toList⟩

/-- A provider response whose first choice carries `minDocText`. -/
def respGood : ChatResp := ⟨[.objChoice (some minDocText)], []⟩

/-- A provider response whose first choice carries non-JSON text. -/
def respJunk : ChatResp := ⟨[.objChoice (some "I cannot help with that.".toList)], []⟩

/-- A provider response with no extractable content but a parseable
`str(chat_resp)` fallback. -/
def noContentResp : ChatResp := ⟨[.objChoice none], minDocText⟩

/-- A provider response whose first choice carries `extDocText`. -/
def respExt : ChatResp := ⟨[.objChoice (some extDocText)], []⟩

/-- An envelope from which no transcript text is extractable. -/
def noTextResp : TranscribeResp := ⟨false, none, "DUMP".toList⟩

/-- The C4 counterexample input: a JSON-tagged opener immediately followed by
a generic opener. -/
def fenceAbuse : List Char := "\x60\x60\x60json\x60\x60\x60X\x60\x60\x60".toList

/-- Okness of an `Except` as a boolean, for concrete statements. -/
def exceptIsOk : Except NoteError ClinicalOutput → Bool
  | .ok _ => true
  | .error _ => false

/-! ## The claims -/

/-- C1: for every JSON text satisfying the ClinicalDocument schema (here: any
text whose stripped form `json.loads`-parses to a value that `validate`
accepts), running sanitize and then validate succeeds and returns a
`ClinicalOutput` whose fields are all equal to the corresponding fields of
the parsed input (round-trip identity, expressed by `fieldsAgree`).
-/
theorem C1_sanitize_validate_roundtrip (s : List Char) (j : Json) (d : ClinicalOutput)
    (h1 : jsonLoads (pyStrip s) = some j) (h2 : validate j = some d) :
    runValidate (sanitize s) = .ok d ∧ ∃ m, j = Json.obj m ∧ fieldsAgree d m := by
  have hobj : ∃ m, j = Json.obj m := by
    cases j <;> first | exact ⟨_, rfl⟩ | simp [validate] at h2
  obtain ⟨m, rfl⟩ := hobj
  have hs : sanitize s = pyStrip s := sanitize_eq_pyStrip_of_obj h1
  refine ⟨?_, m, rfl, validate_fields h2⟩
  rw [hs]
  simp only [runValidate, h1, h2]

/-- Witness for C1 at the minimal schema-conforming document. -/
theorem C1_witness :
    jsonLoads (pyStrip minDocText) = some minDocJson ∧
    validate minDocJson = some minDoc ∧
    (runValidate (sanitize minDocText) = .ok minDoc ∧
      ∃ m, minDocJson = Json.obj m ∧ fieldsAgree minDoc m) :=
  ⟨rfl, rfl, C1_sanitize_validate_roundtrip minDocText minDocJson minDoc rfl rfl⟩

/-- C2: validation is fail-closed.  For every parsed object, (a) if any one of
the nine required top-level fields is absent, `validate` rejects the whole
document; (b) if `icd10_codes` is present but one element is not an object
carrying string `condition` and `code` subfields (missing or mistyped
subfield, `asICD` rejects it), `validate` rejects the whole document; and
(c) the same for `medication_interactions` elements, which must carry string
`drug_a`, `drug_b`, `severity` and `note` subfields (`asMed`): no partial
acceptance, no defaulting of either array-of-object field.
-/
theorem C2_fail_closed (m : List (List Char × Json)) :
    (∀ k ∈ requiredKeys, jlookup k m = none → validate (Json.obj m) = none) ∧
    (∀ items e, jlookup kIcd m = some (Json.arr items) → e ∈ items →
      asICD e = none → validate (Json.obj m) = none) ∧
    (∀ items e, jlookup kMed m = some (Json.arr items) → e ∈ items →
      asMed e = none → validate (Json.obj m) = none) :=
  ⟨fun _ hk hn => validate_none_of_missing hk hn,
   fun _ _ hic he hbad => validate_none_of_bad_icd hic he hbad,
   fun _ _ hmd he hbad => validate_none_of_bad_med hmd he hbad⟩

/-- Witness for C2, exercising all three conjuncts: the eight-field document
(no `clinical_summary`) is rejected; a document whose `icd10_codes` element
lacks `code` is rejected; one whose `icd10_codes` element carries a numeric
`code` is rejected; and one whose `medication_interactions` element lacks
`note` is rejected. -/
theorem C2_witness :
    validate (Json.obj missingDocMembers) = none ∧
    validate (Json.obj badIcdMembers) = none ∧
    validate (Json.obj typedIcdMembers) = none ∧
    validate (Json.obj badMedMembers) = none :=
  ⟨(C2_fail_closed missingDocMembers).1 kSummary (by simp [requiredKeys]) rfl,
   (C2_fail_closed badIcdMembers).2.1 [badIcdElem] badIcdElem rfl
     (List.mem_singleton.mpr rfl) rfl,
   (C2_fail_closed typedIcdMembers).2.1 [typedIcdElem] typedIcdElem rfl
     (List.mem_singleton.mpr rfl) rfl,
   (C2_fail_closed badMedMembers).2.2 [badMedElem] badMedElem rfl
     (List.mem_singleton.mpr rfl) rfl⟩

/-- C3: the pipeline fails through the dedicated `json.JSONDecodeError` handler
(`parseFailure`, the spec's ParseError) exactly when the sanitized text does
not parse, and through the catch-all handler (`generalFailure`, carrying the
spec's SchemaError) when the text parses to a non-object top-level value; the
two categories are distinct, and the empty string left by a content-free
fence parses as nothing and lands in `parseFailure` rather than crashing.
-/
theorem C3_error_categories (s : List Char) :
    (runValidate (sanitize s) = .error .parseFailure ↔ jsonLoads (sanitize s) = none) ∧
    (∀ j, jsonLoads (sanitize s) = some j → (∀ m, j ≠ Json.obj m) →
      runValidate (sanitize s) = .error .generalFailure) ∧
    (NoteError.parseFailure ≠ NoteError.generalFailure) ∧
    sanitize ticks = [] ∧ runValidate (sanitize ticks) = .error .parseFailure := by
  refine ⟨?_, ?_, by decide, rfl, rfl⟩
  · cases hjl : jsonLoads (sanitize s) with
    | none => simp [runValidate, hjl]
    | some j =>
      simp only [runValidate, hjl]
      cases hv : validate j with
      | none => simp
      | some d => simp
  · intro j hjl hno
    have hv : validate j = none := by
      cases j <;> first | rfl | exact absurd rfl (hno _)
    simp [runValidate, hjl, hv]

/-- Witness for C3 at a top-level array: the failure is the catch-all
category, not the parse category. -/
theorem C3_witness :
    runValidate (sanitize ("[1]".toList)) = .error .generalFailure :=
  (C3_error_categories ("[1]".toList)).2.1 (Json.arr [Json.num ['1']]) rfl
    (fun _ h => Json.noConfusion h)

/-- C4 counterexample: the claim's "exclusive alternatives" reading
(`sanitizeSpec`) disagrees with the implementation on a text whose trimmed
form starts with a JSON-tagged opener immediately followed by a generic
opener: the code removes both openers sequentially and yields `"X"`, the
exclusive reading removes only the JSON-tagged one and yields "` ++ ticks ++ `X".
-/
theorem C4_counterexample :
    sanitize fenceAbuse ≠ sanitizeSpec fenceAbuse ∧
    sanitize fenceAbuse = ['X'] ∧
    sanitizeSpec fenceAbuse = ['\x60', '\x60', '\x60', 'X'] :=
  ⟨by decide, by decide, by decide⟩

/-- C4 amended: sanitize trims, then applies the three removals *sequentially* —
the JSON-tagged opener removal, then the generic opener removal on whatever
is left, then the closer removal on whatever is left — and re-trims; it is a
total function, and when the trimmed text carries no fence delimiters at its
ends it returns just the trimmed text (best effort).
-/
theorem C4_sanitize_sequential (s : List Char) :
    sanitize s =
      pyStrip (removeTicksClose (removeTicksOpen (removeJsonOpen (pyStrip s)))) ∧
    (ticks.isPrefixOf (pyStrip s) = false → ticks.isSuffixOf (pyStrip s) = false →
      sanitize s = pyStrip s) :=
  ⟨rfl, fun h1 h2 => sanitize_eq_pyStrip_of_noFence h1 h2⟩

/-- Witness for C4 at a fence-free text. -/
theorem C4_witness : sanitize ("hello".toList) = pyStrip ("hello".toList) :=
  (C4_sanitize_sequential ("hello".toList)).2 (by decide) (by decide)

/-- C5 counterexample: wrapping is not transparent for every text.  For the
already-fenced document text `wrapJsonFence minDocText`, the unwrapped text
validates to a document but the wrapped text fails with the parse error:
sanitize removes only one fence layer.
-/
theorem C5_counterexample :
    runValidate (sanitize (wrapJsonFence (wrapJsonFence minDocText))) =
      .error .parseFailure ∧
    runValidate (sanitize (wrapJsonFence minDocText)) = .ok minDoc ∧
    runValidate (sanitize (wrapJsonFence (wrapJsonFence minDocText))) ≠
      runValidate (sanitize (wrapJsonFence minDocText)) :=
  ⟨rfl, rfl, fun hx => by
    have hx' : (Except.error NoteError.parseFailure : Except NoteError ClinicalOutput) =
        Except.ok minDoc := hx
    exact Except.noConfusion hx'⟩

/-- C5 amended: for every text `t` whose trimmed form neither starts with a
generic fence opener nor ends with a fence closer (in particular any text
that is not itself fence-delimited), sanitizing the fence-wrapped text gives
exactly the same string as sanitizing `t`, so the wrapped content validates
identically to the unwrapped content.
-/
theorem C5_wrap_validates_identically (t : List Char)
    (h1 : ticks.isPrefixOf (pyStrip t) = false)
    (h2 : ticks.isSuffixOf (pyStrip t) = false) :
    sanitize (wrapJsonFence t) = sanitize t ∧
    runValidate (sanitize (wrapJsonFence t)) = runValidate (sanitize t) := by
  have he : sanitize (wrapJsonFence t) = sanitize t := by
    rw [sanitize_wrapJsonFence t, sanitize_eq_pyStrip_of_noFence h1 h2]
  exact ⟨he, by rw [he]⟩

/-- Witness for C5 at the minimal document text. -/
theorem C5_witness :
    sanitize (wrapJsonFence minDocText) = sanitize minDocText ∧
    runValidate (sanitize (wrapJsonFence minDocText)) =
      runValidate (sanitize minDocText) :=
  C5_wrap_validates_identically minDocText (by decide) (by decide)

/-- C6: failure atomicity.  Whenever the sanitized completion text fails parsing
or validation, the orchestrator returns the corresponding error and the list
of persistence-insert attempts is empty — regardless of the persistence
outcome parameter; no record is created on any failure path.
-/
theorem C6_no_persist_on_failure (req : TranscriptionRequest) (resp : ChatResp)
    (pf : Bool) (content : List Char) (e : NoteError)
    (hc : contentOf resp = some content)
    (he : runValidate (sanitize content) = .error e) :
    generate_clinical_notes req resp pf = (.error e, []) := by
  rw [generate_notes_content hc]
  exact notesFromContent_error he

/-- Witness for C6: non-JSON completion text yields the parse error and zero
insert attempts. -/
theorem C6_witness :
    generate_clinical_notes reqA respJunk false = (.error .parseFailure, []) :=
  C6_no_persist_on_failure reqA respJunk false
    ("I cannot help with that.".toList) .parseFailure rfl rfl

/-- C7 counterexample: the claim says a persistence failure after successful
extraction still returns the validated document; in the code the exception
from `insert_one` reaches the catch-all handler, so the caller receives the
generic 500 error, not the document — even though extraction succeeded.
-/
theorem C7_counterexample :
    runValidate (sanitize minDocText) = .ok minDoc ∧
    (generate_clinical_notes reqA respGood true).1 = .error .generalFailure :=
  ⟨rfl, rfl⟩

/-- C7 amended: when extraction succeeds and the persistence insert then fails,
the orchestrator returns the generic failure (the catch-all 500), not the
validated document; the insert was still attempted exactly once with the
assembled record.
-/
theorem C7_persist_failure_errors (req : TranscriptionRequest) (resp : ChatResp)
    (content : List Char) (j : Json) (d : ClinicalOutput)
    (hc : contentOf resp = some content)
    (hjl : jsonLoads (sanitize content) = some j) (hv : validate j = some d) :
    generate_clinical_notes req resp true =
      (.error .generalFailure, [⟨req.transcript, req.observed_actions, j⟩]) := by
  rw [generate_notes_content hc, notesFromContent_success hjl hv]
  rfl

/-- Witness for C7 at the minimal document. -/
theorem C7_witness :
    generate_clinical_notes reqA respGood true =
      (.error .generalFailure, [⟨reqA.transcript, reqA.observed_actions, minDocJson⟩]) :=
  C7_persist_failure_errors reqA respGood minDocText minDocJson minDoc rfl rfl rfl

/-- C8 counterexample: the claim says the transcription path fails with
TranscriptionError when no transcript text can be extracted from the
envelope; in the code the `text is None` case falls back to
`json.dumps(transcription, default=str)` (line 160) and a
`TranscriptionResponse` is still returned — the envelope shape never fails.
-/
theorem C8_counterexample :
    extractedTranscript noTextResp = none ∧
    transcribe_audio noTextResp = .ok ⟨"DUMP".toList⟩ :=
  ⟨rfl, rfl⟩

/-- C8 amended: the transcription path always returns a `TranscriptionResponse`;
when text was extracted from the envelope it is that text, and when no text
could be extracted the transcript is the serialized envelope — no
TranscriptionError is raised for envelope shape.
-/
theorem C8_transcribe_fallback (r : TranscribeResp) :
    (extractedTranscript r = none → transcribe_audio r = .ok ⟨r.dumps⟩) ∧
    (∀ s, extractedTranscript r = some s → transcribe_audio r = .ok ⟨s⟩) := by
  constructor
  · intro h
    rw [transcribe_audio, h]
    rfl
  · intro s h
    rw [transcribe_audio, h]
    rfl

/-- Witness for C8 at the textless envelope. -/
theorem C8_witness : transcribe_audio noTextResp = .ok ⟨noTextResp.dumps⟩ :=
  (C8_transcribe_fallback noTextResp).1 rfl

/-- C9 counterexample: the claim says an envelope with no extractable text fails
with CompletionError("unparseable response shape") and never proceeds with a
substitute; in the code `content = str(chat_resp)` (line 228, "final
fallback") and the pipeline proceeds — here all the way to a successful
document, with one record persisted.
-/
theorem C9_counterexample :
    choiceText (ChatChoice.objChoice none) = none ∧
    (generate_clinical_notes reqA noContentResp false).1 = .ok minDoc ∧
    exceptIsOk (generate_clinical_notes reqA noContentResp false).1 = true :=
  ⟨rfl, rfl, rfl⟩

/-- C9 amended: when the first choice of the envelope yields no textual content,
the orchestrator substitutes the string representation of the whole response
(`str(chat_resp)`) and proceeds to sanitize and validate that substitute; no
dedicated completion error exists in this path.
-/
theorem C9_fallback_to_strRep (req : TranscriptionRequest) (resp : ChatResp)
    (pf : Bool) (ch : ChatChoice) (rest : List ChatChoice)
    (hch : resp.choices = ch :: rest) (hno : choiceText ch = none) :
    generate_clinical_notes req resp pf = notesFromContent req resp.strRep pf := by
  have hc : contentOf resp = some resp.strRep := by
    rw [contentOf, hch]
    simp [hno]
  exact generate_notes_content hc

/-- Witness for C9 at the contentless envelope. -/
theorem C9_witness :
    generate_clinical_notes reqA noContentResp false =
      notesFromContent reqA noContentResp.strRep false :=
  C9_fallback_to_strRep reqA noContentResp false (ChatChoice.objChoice none) [] rfl rfl

/-- C10 (implicit): on every successful extraction the persisted record stores
the *raw parsed object* `j` (the dict from `json.loads`), not the validated
model — so unknown top-level fields that validation ignored are retained in
the record — while the HTTP response is the validated `ClinicalOutput`,
whose serialization carries exactly the nine schema fields and no others.
-/
theorem C10_raw_dict_persisted (req : TranscriptionRequest) (resp : ChatResp)
    (pf : Bool) (content : List Char) (j : Json) (d : ClinicalOutput)
    (hc : contentOf resp = some content)
    (hjl : jsonLoads (sanitize content) = some j) (hv : validate j = some d) :
    (generate_clinical_notes req resp pf).2 =
      [⟨req.transcript, req.observed_actions, j⟩] ∧
    (pf = false → generate_clinical_notes req resp pf =
      (.ok d, [⟨req.transcript, req.observed_actions, j⟩])) ∧
    (∀ k, k ∉ requiredKeys → jlookup k (responseMembers d) = none) := by
  refine ⟨?_, ?_, ?_⟩
  · rw [generate_notes_content hc, notesFromContent_success hjl hv]
  · intro hpf
    subst hpf
    rw [generate_notes_content hc, notesFromContent_success hjl hv]
    rfl
  · intro k hk
    rw [jlookup_eq_none]
    intro p hp hpk
    apply hk
    rw [← hpk]
    simp only [responseMembers, List.mem_cons, List.not_mem_nil, or_false] at hp
    rcases hp with rfl | rfl | rfl | rfl | rfl | rfl | rfl | rfl | rfl <;>
      simp [requiredKeys]

/-- Witness for C10 at a document carrying one unknown field: the record
keeps it, the response members do not. -/
theorem C10_witness :
    (generate_clinical_notes reqA respExt false).2 =
      [⟨reqA.transcript, reqA.observed_actions, extDocJson⟩] ∧
    (false = false → generate_clinical_notes reqA respExt false =
      (.ok minDoc, [⟨reqA.transcript, reqA.observed_actions, extDocJson⟩])) ∧
    (∀ k, k ∉ requiredKeys → jlookup k (responseMembers minDoc) = none) :=
  C10_raw_dict_persisted reqA respExt false extDocText extDocJson minDoc rfl rfl rfl
